import Mathlib

/-!
# Verification of the memfs in-memory filesystem engine

A shallow embedding of `samples/memfs/memfs.go`: the inode table
(allocation, deallocation, invariant checking) and the dispatcher
operations (LookUpInode, GetInodeAttributes, MkDir, CreateFile,
CreateSymlink, RmDir, Unlink, ReadFile, WriteFile).

The per-inode content operations (`newInode`, `LookUpChild`, `AddChild`,
`RemoveChild`, `Len`, `ReadAt`, `WriteAt`, `isDir`) live in a separate
source file (`inode.go`) that is not part of the visible sources; those
are modelled from the spec (sections 4.2-4.4) and marked as such.

Machine integers: Go `uint32` fields (Nlink, Uid, Gid) are modelled as
`Nat` with explicit `% 2^32` where wraparound matters (the `Nlink--`
decrement). Times are `Nat` (nanoseconds, as Go's `time.Duration` unit).
-/

namespace Memfs

/-- The `fuseops.RootInodeID`: the reserved root inode ID of the FUSE
protocol, equal to 1. Library constant used by `memfs.go`. -/
def RootInodeID : Nat := 1

/-- The `os.ModeDir`: bit 31 of a Go `os.FileMode`. -/
def ModeDir : Nat := 2147483648

/-- The `os.ModeSymlink`: bit 27 of a Go `os.FileMode`. -/
def ModeSymlink : Nat := 134217728

/-- One nanosecond-denominated year: `365 * 24 * time.Hour`. -/
def yearNs : Nat := 365 * 24 * 3600 * 1000000000

/-- The `fuseops.InodeAttributes`: POSIX-style metadata. Go zero value is
all zeroes. -/
structure InodeAttributes where
  Size : Nat := 0
  Nlink : Nat := 0
  Mode : Nat := 0
  Atime : Nat := 0
  Mtime : Nat := 0
  Ctime : Nat := 0
  Crtime : Nat := 0
  Uid : Nat := 0
  Gid : Nat := 0
  deriving DecidableEq, Repr

/-- The `fuseutil.DT_*`: the type tag carried by a directory entry. -/
inductive DirentType where
  | DT_Directory
  | DT_File
  | DT_Link
  deriving DecidableEq, Repr

/-- A directory entry: name, child inode ID and type. Modelled from the
spec (section 4.3): `(name, child, type)`, insertion order kept. -/
structure DirEntry where
  name : String
  child : Nat
  dtype : DirentType
  deriving DecidableEq, Repr

/-- An inode: attributes plus kind-specific content (directory entries,
file byte buffer, or symlink target). The concrete struct lives in the
unshown `inode.go`; its shape is modelled from the spec (section 3). -/
structure Inode where
  attrs : InodeAttributes
  entries : List DirEntry := []
  contents : List Nat := []
  target : String := ""
  deriving DecidableEq, Repr

/-- Modelled from the spec: `newInode` (in the unshown `inode.go`)
creates an inode carrying the given initial attributes and empty
kind-specific content. -/
def newInode (attrs : InodeAttributes) : Inode :=
  { attrs := attrs }

/-- Modelled from the spec: the `isDir` kind predicate of the unshown
`inode.go` tests the directory bit of the mode. -/
def Inode.isDir (ino : Inode) : Bool :=
  ino.attrs.Mode.land ModeDir ≠ 0

/-- Modelled from the spec (section 4.3): `LookUpChild` is exact-match
lookup of a name among the directory entries. -/
def Inode.LookUpChild (ino : Inode) (name : String) : Option Nat :=
  (ino.entries.find? (fun e => e.name = name)).map (fun e => e.child)

/-- Modelled from the spec (section 4.3): `AddChild` appends an entry. -/
def Inode.AddChild (ino : Inode) (id : Nat) (name : String)
    (dt : DirentType) : Inode :=
  { ino with entries := ino.entries ++ [⟨name, id, dt⟩] }

/-- Modelled from the spec (section 4.3): `RemoveChild` deletes the
entry with the given name. -/
def Inode.RemoveChild (ino : Inode) (name : String) : Inode :=
  { ino with entries := ino.entries.eraseP (fun e => e.name = name) }

/-- Modelled from the spec (section 4.3): `Len` is the entry count. -/
def Inode.Len (ino : Inode) : Nat :=
  ino.entries.length

/-- The `uint32` decrement performed by `child.attrs.Nlink--`. -/
def decNlink (n : Nat) : Nat :=
  (n + 4294967295) % 4294967296

/-- The mutable state of `memFS`: the inode slot array (vacant slots are
`none`) and the free list of reusable IDs. -/
structure MemFS where
  inodes : List (Option Inode)
  freeInodes : List Nat
  deriving DecidableEq, Repr

/-- The root attributes set up by `NewMemFS`: mode `0700 | os.ModeDir`,
the supplied uid/gid, everything else (Nlink included) left at zero. -/
def rootAttrs (uid gid : Nat) : InodeAttributes :=
  { Mode := 448 + ModeDir, Uid := uid, Gid := gid }

/-- The state built by `NewMemFS`: a slot array of length
`RootInodeID + 1` whose root slot holds a fresh directory inode, and an
empty free list. -/
def NewMemFS (uid gid : Nat) : MemFS :=
  { inodes := (List.replicate RootInodeID none) ++
      [some (newInode (rootAttrs uid gid))],
    freeInodes := [] }

/-- The `allocateInode`: create a new inode; pop the most recently freed ID
off the free list if it is non-empty, otherwise append a fresh slot.
Returns the chosen ID, the new inode, and the updated state. -/
def allocateInode (fs : MemFS) (attrs : InodeAttributes) :
    Nat × Inode × MemFS :=
  let ino := newInode attrs
  if h : fs.freeInodes ≠ [] then
    let id := fs.freeInodes.getLast h
    (id, ino,
     { inodes := fs.inodes.set id (some ino),
       freeInodes := fs.freeInodes.dropLast })
  else
    (fs.inodes.length, ino,
     { inodes := fs.inodes ++ [some ino],
       freeInodes := fs.freeInodes })

/-- The `deallocateInode`: append the ID to the free list and vacate the
slot. -/
def deallocateInode (fs : MemFS) (id : Nat) : MemFS :=
  { inodes := fs.inodes.set id none,
    freeInodes := fs.freeInodes ++ [id] }

/-- The list of vacant slot IDs strictly above the root ID, in slot
order: the set `checkInvariants` rebuilds as `freeIDsEncountered`. -/
def vacantAbove (fs : MemFS) : List Nat :=
  (List.range fs.inodes.length).filter
    (fun i => decide (RootInodeID < i) && decide (fs.inodes[i]? = some none))

/-- The `checkInvariants`, as written in the source: returns `true` exactly
when some `panic` in its body fires. It panics when a reserved slot
(ID below the root) is non-vacant or out of range, when the root slot is
absent, vacant or not a directory, when the free-list length differs
from the number of vacant slots above the root, or when some free-list
member is not a vacant slot above the root. -/
def checkInvariantsPanics (fs : MemFS) : Bool :=
  ((List.range RootInodeID).any (fun i => !decide (fs.inodes[i]? = some none)))
  || (match fs.inodes[RootInodeID]? with
      | some (some ino) => !ino.isDir
      | _ => true)
  || decide (fs.freeInodes.length ≠ (vacantAbove fs).length)
  || (fs.freeInodes.any (fun id => !decide (id ∈ vacantAbove fs)))

/-- The table invariants of section 3 of the spec, read semantically:
the table is longer than the root ID, reserved slots are vacant, the
root slot holds a directory, and the free list is a duplicate-free
enumeration of exactly the vacant slot IDs above the root. -/
def Inv (fs : MemFS) : Prop :=
  RootInodeID < fs.inodes.length ∧
  (∀ i < RootInodeID, fs.inodes[i]? = some none) ∧
  (∃ ino, fs.inodes[RootInodeID]? = some (some ino) ∧ ino.isDir) ∧
  fs.freeInodes.Nodup ∧
  (∀ id, id ∈ fs.freeInodes ↔
    (RootInodeID < id ∧ fs.inodes[id]? = some none))

/-- Replace the inode stored at slot `i` by `f` of it, when the slot is
occupied; otherwise leave the state unchanged. This is the pure-state
reading of a Go mutation through the `*inode` pointer held in the
table. -/
def modifySlot (fs : MemFS) (i : Nat) (f : Inode → Inode) : MemFS :=
  match fs.inodes[i]? with
  | some (some ino) => { fs with inodes := fs.inodes.set i (some (f ino)) }
  | _ => fs

/-- User-visible error conditions surfaced by the dispatcher. -/
inductive FSError where
  | ENOENT
  | EEXIST
  | ENOTEMPTY
  deriving DecidableEq, Repr

/-- Outcome of a dispatcher operation: a result, a user-visible error,
or a fatal panic (unknown inode ID). -/
inductive OpResult (α : Type) where
  | ok (val : α)
  | error (e : FSError)
  | panic
  deriving DecidableEq, Repr

/-- The `fuseops.ChildInodeEntry`: the response entry filled in by lookup
and create operations. -/
structure ChildInodeEntry where
  Child : Nat
  Attributes : InodeAttributes
  AttributesExpiration : Nat
  EntryExpiration : Nat
  deriving DecidableEq, Repr

/-- The `LookUpInode`: resolve `name` in the parent directory; `ENOENT` when
absent, otherwise fill in the child's ID and attributes. The attribute
expiration is set a year past `now`; the entry expiration field is
assigned to itself in the source, so it keeps its incoming value
`entryExp0` (the Go zero value when the op arrives from the protocol
layer). -/
def LookUpInode (fs : MemFS) (parent : Nat) (name : String)
    (now entryExp0 : Nat) : OpResult ChildInodeEntry :=
  match fs.inodes[parent]? with
  | some (some parentIno) =>
    match parentIno.LookUpChild name with
    | none => .error .ENOENT
    | some childID =>
      match fs.inodes[childID]? with
      | some (some child) =>
        .ok { Child := childID, Attributes := child.attrs,
              AttributesExpiration := now + yearNs,
              EntryExpiration := entryExp0 }
      | _ => .panic
  | _ => .panic

/-- The `GetInodeAttributes`: return the inode's attributes and an
expiration a year past `now`. -/
def GetInodeAttributes (fs : MemFS) (id now : Nat) :
    OpResult (InodeAttributes × Nat) :=
  match fs.inodes[id]? with
  | some (some ino) => .ok (ino.attrs, now + yearNs)
  | _ => .panic

/-- The `MkDir`: allocate a child directory inode with `Nlink = 1` and the
caller's mode/uid/gid, and append an entry in the parent. The source
performs no existing-name check. -/
def MkDir (fs : MemFS) (parent : Nat) (name : String)
    (mode uid gid now entryExp0 : Nat) : MemFS × OpResult ChildInodeEntry :=
  match fs.inodes[parent]? with
  | some (some _) =>
    let childAttrs : InodeAttributes :=
      { Nlink := 1, Mode := mode, Uid := uid, Gid := gid }
    let alloc := allocateInode fs childAttrs
    let childID := alloc.1
    let child := alloc.2.1
    let fs1 := alloc.2.2
    let fs2 := modifySlot fs1 parent
      (fun p => p.AddChild childID name .DT_Directory)
    (fs2, .ok { Child := childID, Attributes := child.attrs,
                AttributesExpiration := now + yearNs,
                EntryExpiration := entryExp0 })
  | _ => (fs, .panic)

/-- The `CreateFile`: reject with `EEXIST` when the parent already has an
entry with the name; otherwise allocate a child file inode with
`Nlink = 1`, the caller's mode/uid/gid and all four times set to `now`,
and append an entry in the parent. -/
def CreateFile (fs : MemFS) (parent : Nat) (name : String)
    (mode uid gid now entryExp0 : Nat) : MemFS × OpResult ChildInodeEntry :=
  match fs.inodes[parent]? with
  | some (some parentIno) =>
    if (parentIno.LookUpChild name).isSome then
      (fs, .error .EEXIST)
    else
      let childAttrs : InodeAttributes :=
        { Nlink := 1, Mode := mode, Atime := now, Mtime := now,
          Ctime := now, Crtime := now, Uid := uid, Gid := gid }
      let alloc := allocateInode fs childAttrs
      let childID := alloc.1
      let child := alloc.2.1
      let fs1 := alloc.2.2
      let fs2 := modifySlot fs1 parent
        (fun p => p.AddChild childID name .DT_File)
      (fs2, .ok { Child := childID, Attributes := child.attrs,
                  AttributesExpiration := now + yearNs,
                  EntryExpiration := entryExp0 })
  | _ => (fs, .panic)

/-- The `CreateSymlink`: allocate a child symlink inode with `Nlink = 1`,
mode `0444 | os.ModeSymlink` and times `now`, set its target, and append
an entry in the parent. The source performs no existing-name check. -/
def CreateSymlink (fs : MemFS) (parent : Nat) (name target : String)
    (uid gid now entryExp0 : Nat) : MemFS × OpResult ChildInodeEntry :=
  match fs.inodes[parent]? with
  | some (some _) =>
    let childAttrs : InodeAttributes :=
      { Nlink := 1, Mode := 292 + ModeSymlink, Atime := now, Mtime := now,
        Ctime := now, Crtime := now, Uid := uid, Gid := gid }
    let alloc := allocateInode fs childAttrs
    let childID := alloc.1
    let fs1 := alloc.2.2
    let fs2 := modifySlot fs1 childID (fun c => { c with target := target })
    let fs3 := modifySlot fs2 parent
      (fun p => p.AddChild childID name .DT_Link)
    let childAttrsOut := match fs2.inodes[childID]? with
      | some (some c) => c.attrs
      | _ => childAttrs
    (fs3, .ok { Child := childID, Attributes := childAttrsOut,
                AttributesExpiration := now + yearNs,
                EntryExpiration := entryExp0 })
  | _ => (fs, .panic)

/-- The `RmDir`: `ENOENT` when the parent has no entry with the name,
`ENOTEMPTY` when the child has entries; otherwise remove the parent's
entry and decrement the child's link count. -/
def RmDir (fs : MemFS) (parent : Nat) (name : String) :
    MemFS × OpResult Unit :=
  match fs.inodes[parent]? with
  | some (some parentIno) =>
    match parentIno.LookUpChild name with
    | none => (fs, .error .ENOENT)
    | some childID =>
      match fs.inodes[childID]? with
      | some (some child) =>
        if child.Len ≠ 0 then
          (fs, .error .ENOTEMPTY)
        else
          let fs1 := modifySlot fs parent (fun p => p.RemoveChild name)
          let fs2 := modifySlot fs1 childID
            (fun c => { c with attrs :=
              { c.attrs with Nlink := decNlink c.attrs.Nlink } })
          (fs2, .ok ())
      | _ => (fs, .panic)
  | _ => (fs, .panic)

/-- The `Unlink`: `ENOENT` when the parent has no entry with the name;
otherwise remove the parent's entry and decrement the child's link
count. -/
def Unlink (fs : MemFS) (parent : Nat) (name : String) :
    MemFS × OpResult Unit :=
  match fs.inodes[parent]? with
  | some (some parentIno) =>
    match parentIno.LookUpChild name with
    | none => (fs, .error .ENOENT)
    | some childID =>
      match fs.inodes[childID]? with
      | some (some _) =>
        let fs1 := modifySlot fs parent (fun p => p.RemoveChild name)
        let fs2 := modifySlot fs1 childID
          (fun c => { c with attrs :=
            { c.attrs with Nlink := decNlink c.attrs.Nlink } })
        (fs2, .ok ())
      | _ => (fs, .panic)
  | _ => (fs, .panic)

/-- Modelled from the spec (section 4.4): `ReadAt` (in the unshown
`inode.go`) copies the overlap of `[offset, offset + bufLen)` with the
current contents and signals end-of-data when any part of the requested
range lies at or beyond the current size. -/
def ReadAt (ino : Inode) (bufLen offset : Nat) : List Nat × Bool :=
  ((ino.contents.drop offset).take bufLen,
   decide (ino.contents.length < offset + bufLen))

/-- The `ReadFile`: run `ReadAt` over a buffer of the requested size,
truncate the response to the bytes actually read, and convert the
end-of-data sentinel into success. -/
def ReadFile (fs : MemFS) (id size offset : Nat) : OpResult (List Nat) :=
  match fs.inodes[id]? with
  | some (some ino) => .ok (ReadAt ino size offset).1
  | _ => .panic

/-- Modelled from the spec (section 4.4): `WriteAt` (in the unshown
`inode.go`) writes the full data at `offset`, growing the buffer to
`offset + len(data)` when that exceeds the current size and zero-filling
any gap between the old size and `offset`. -/
def WriteAt (contents data : List Nat) (offset : Nat) : List Nat :=
  ((contents ++ List.replicate (offset - contents.length) 0).take offset)
    ++ data ++ contents.drop (offset + data.length)

/-- The `WriteFile`: apply `WriteAt` to the inode's contents. -/
def WriteFile (fs : MemFS) (id : Nat) (data : List Nat) (offset : Nat) :
    MemFS × OpResult Unit :=
  match fs.inodes[id]? with
  | some (some _) =>
    (modifySlot fs id
      (fun ino => { ino with contents := WriteAt ino.contents data offset }),
     .ok ())
  | _ => (fs, .panic)

/-- A raw inode-table operation, for reasoning about arbitrary
allocate/deallocate sequences. -/
inductive TableOp where
  | alloc (attrs : InodeAttributes)
  | dealloc (id : Nat)
  deriving Repr

/-- Apply one table operation to the state. -/
def applyTableOp (fs : MemFS) : TableOp → MemFS
  | .alloc attrs => (allocateInode fs attrs).2.2
  | .dealloc id => deallocateInode fs id

/-- Run a sequence of table operations. -/
def runTableOps (fs : MemFS) : List TableOp → MemFS
  | [] => fs
  | op :: rest => runTableOps (applyTableOp fs op) rest

/-- Whether slot `id` currently holds an inode. -/
def occupied (fs : MemFS) (id : Nat) : Bool :=
  match fs.inodes[id]? with
  | some (some _) => true
  | _ => false

/-- A sequence of table operations is valid when every `dealloc` in it
targets a currently occupied slot with ID above the root — the way the
engine uses `deallocateInode` (only live, non-root inodes are ever
reclaimed). -/
def validOps (fs : MemFS) : List TableOp → Bool
  | [] => true
  | .alloc attrs :: rest => validOps (applyTableOp fs (.alloc attrs)) rest
  | .dealloc id :: rest =>
      decide (RootInodeID < id) && occupied fs id &&
      validOps (applyTableOp fs (.dealloc id)) rest

/-! ## Concrete example states used by witnesses and counterexamples -/

/-- The root inode as `NewMemFS 0 0` builds it. -/
def exRoot : Inode := newInode (rootAttrs 0 0)

/-- A plain occupied file inode. -/
def exFile : Inode := { attrs := { Nlink := 1, Mode := 420 } }

/-- A fully occupied eight-slot table. -/
def exFull : MemFS :=
  { inodes := [none, some exRoot, some exFile, some exFile, some exFile,
               some exFile, some exFile, some exFile],
    freeInodes := [] }

/-- Slots 5 and 7 vacant, but the free list records 5 twice: same length
as the vacant set and every member vacant, yet not equal to it. -/
def exDup : MemFS :=
  { inodes := [none, some exRoot, some exFile, some exFile, some exFile,
               none, some exFile, none],
    freeInodes := [5, 5] }

/-- The fresh filesystem after `MkDir(root, "a")`. -/
def exS1 : MemFS := (MkDir (NewMemFS 0 0) 1 "a" (448 + ModeDir) 0 0 100 0).1

/-- The fresh filesystem after `CreateFile(root, "f")`. -/
def exS1f : MemFS := (CreateFile (NewMemFS 0 0) 1 "f" 420 0 0 100 0).1

/-- The `exS1` after `MkDir(2, "b")`: directory `"a"` (inode 2) is now
non-empty. -/
def exNested : MemFS := (MkDir exS1 2 "b" (448 + ModeDir) 0 0 100 0).1

/-- A file inode holding the bytes of `"taco"`. -/
def exTaco : Inode := { attrs := { Nlink := 1, Mode := 420 },
                        contents := [116, 97, 99, 111] }

/-- A table whose slot 2 holds the `"taco"` file. -/
def exTacoFS : MemFS :=
  { inodes := [none, some exRoot, some exTaco], freeInodes := [] }

/-! ## Claims -/

/-- Claim C2: `allocateInode` reuses free-list IDs in LIFO order: with a
non-empty free list it returns the last (most recently freed) ID,
removes it from the list and stores the new inode in that slot;
otherwise it mints the ID equal to the table length and appends a slot.
Concretely, deallocating IDs 5 then 7 makes the next allocation return 7
and the one after 5. -/
theorem C2_allocate_lifo :
    (∀ (fs : MemFS) (attrs : InodeAttributes) (h : fs.freeInodes ≠ []),
      (allocateInode fs attrs).1 = fs.freeInodes.getLast h ∧
      (allocateInode fs attrs).2.2.freeInodes = fs.freeInodes.dropLast ∧
      (allocateInode fs attrs).2.2.inodes =
        fs.inodes.set (fs.freeInodes.getLast h) (some (newInode attrs))) ∧
    (∀ (fs : MemFS) (attrs : InodeAttributes), fs.freeInodes = [] →
      (allocateInode fs attrs).1 = fs.inodes.length ∧
      (allocateInode fs attrs).2.2.inodes =
        fs.inodes ++ [some (newInode attrs)] ∧
      (allocateInode fs attrs).2.2.freeInodes = []) ∧
    ((allocateInode (deallocateInode (deallocateInode exFull 5) 7)
        exFile.attrs).1 = 7 ∧
     (allocateInode (allocateInode (deallocateInode
        (deallocateInode exFull 5) 7) exFile.attrs).2.2 exFile.attrs).1 = 5) := by
  refine ⟨?_, ?_, by decide⟩
  · intro fs attrs h
    simp [allocateInode, h]
  · intro fs attrs h
    simp [allocateInode, h]

/-- Witness for **C2**: the non-empty free-list case at a concrete
state. -/
theorem C2_allocate_lifo_witness :
    (exDup.freeInodes ≠ []) ∧
    (allocateInode exDup exFile.attrs).1 = exDup.freeInodes.getLast
      (by decide) := by
  have h := C2_allocate_lifo.1 exDup exFile.attrs (by decide)
  exact ⟨by decide, h.1⟩

/-- An empty directory inode. -/
def exEmptyDir : Inode := { attrs := { Nlink := 1, Mode := 448 + ModeDir } }

/-- A non-empty directory inode (one entry). -/
def exDirA : Inode :=
  { attrs := { Nlink := 1, Mode := 448 + ModeDir },
    entries := [⟨"b", 4, .DT_File⟩] }

/-- A parent directory with a non-empty subdirectory `"a"` (slot 2), an
empty subdirectory `"e"` (slot 3) and a file `"f"` (slot 4). -/
def exParentIno : Inode :=
  { attrs := rootAttrs 0 0,
    entries := [⟨"a", 2, .DT_Directory⟩, ⟨"e", 3, .DT_Directory⟩,
                ⟨"f", 4, .DT_File⟩] }

/-- The table holding `exParentIno` at the root. -/
def exTree : MemFS :=
  { inodes := [none, some exParentIno, some exDirA, some exEmptyDir,
               some exFile],
    freeInodes := [] }

/-- Claim C5: `RmDir` returns `ENOTEMPTY` and leaves the state unchanged
when the named child has entries, and returns `ENOENT` when the parent
has no entry with the given name. -/
theorem C5_rmdir_errors :
    (∀ (fs : MemFS) (p : Nat) (n : String) (pIno child : Inode)
        (childID : Nat),
      fs.inodes[p]? = some (some pIno) →
      pIno.LookUpChild n = some childID →
      fs.inodes[childID]? = some (some child) →
      child.Len ≠ 0 →
      RmDir fs p n = (fs, .error .ENOTEMPTY)) ∧
    (∀ (fs : MemFS) (p : Nat) (n : String) (pIno : Inode),
      fs.inodes[p]? = some (some pIno) →
      pIno.LookUpChild n = none →
      RmDir fs p n = (fs, .error .ENOENT)) := by
  constructor
  · intro fs p n pIno child childID h1 h2 h3 h4
    simp [RmDir, h1, h2, h3, h4]
  · intro fs p n pIno h1 h2
    simp [RmDir, h1, h2]

/-- Witness for **C5**: in `exTree`, removing the non-empty directory
`"a"` fails with `ENOTEMPTY` and removing the absent name `"zzz"` fails
with `ENOENT`, both without mutation. -/
theorem C5_rmdir_errors_witness :
    RmDir exTree 1 "a" = (exTree, .error .ENOTEMPTY) ∧
    RmDir exTree 1 "zzz" = (exTree, .error .ENOENT) :=
  ⟨C5_rmdir_errors.1 exTree 1 "a" exParentIno exDirA 2
      (by decide) (by decide) (by decide) (by decide),
   C5_rmdir_errors.2 exTree 1 "zzz" exParentIno (by decide) (by decide)⟩

/-- Claim C6: `ReadFile` never surfaces end-of-data as an error: on an
occupied inode it always returns `ok`; a read at or beyond the current
size returns zero bytes; a read overlapping the end returns the
available suffix starting at the offset (`size - offset` bytes); and
whenever `ReadAt` signals end-of-data the operation still returns its
bytes with `ok`. -/
theorem C6_read_eof_not_error :
    ∀ (fs : MemFS) (id size offset : Nat) (ino : Inode),
      fs.inodes[id]? = some (some ino) →
      (∃ d, ReadFile fs id size offset = .ok d) ∧
      (ino.contents.length ≤ offset → ReadFile fs id size offset = .ok []) ∧
      (offset < ino.contents.length → ino.contents.length ≤ offset + size →
        ReadFile fs id size offset = .ok (ino.contents.drop offset) ∧
        (ino.contents.drop offset).length = ino.contents.length - offset) ∧
      ((ReadAt ino size offset).2 = true →
        ReadFile fs id size offset = .ok (ReadAt ino size offset).1) := by
  intro fs id size offset ino h
  have hread : ReadFile fs id size offset =
      .ok ((ino.contents.drop offset).take size) := by
    simp [ReadFile, ReadAt, h]
  refine ⟨⟨_, hread⟩, ?_, ?_, ?_⟩
  · intro hle
    rw [hread, List.drop_eq_nil_of_le hle]
    simp
  · intro hlt hover
    have hlen : (ino.contents.drop offset).length =
        ino.contents.length - offset := List.length_drop _ _
    refine ⟨?_, hlen⟩
    rw [hread, List.take_of_length_le]
    rw [hlen]
    omega
  · intro _
    exact hread

/-- Witness for **C6**: content `"taco"`, a 4-byte read at offset 2
returns `"co"` with no error, and a read at offset 4 returns nothing
with no error. -/
theorem C6_read_eof_not_error_witness :
    (exTaco.contents.length ≤ 4 ∧ ReadFile exTacoFS 2 4 4 = .ok []) ∧
    (2 < exTaco.contents.length ∧ exTaco.contents.length ≤ 2 + 4 ∧
      ReadFile exTacoFS 2 4 2 = .ok [99, 111]) := by
  have h4 := C6_read_eof_not_error exTacoFS 2 4 4 exTaco (by decide)
  have h2 := C6_read_eof_not_error exTacoFS 2 4 2 exTaco (by decide)
  exact ⟨⟨by decide, h4.2.1 (by decide)⟩,
         ⟨by decide, by decide, (h2.2.2.1 (by decide) (by decide)).1⟩⟩

/-- Modelled from the spec (section 4.4): `resize` truncates or grows
(zero-filling) the buffer to exactly the new size. -/
def resize (contents : List Nat) (newSize : Nat) : List Nat :=
  contents.take newSize ++ List.replicate (newSize - contents.length) 0

/-- Claim C7: `WriteFile` always writes the full data: the inode's
contents become `WriteAt contents data offset`, whose slice at `offset`
equals `data`; when `offset + len(data)` exceeds the old size the
contents grow to exactly that size; every gap byte between the old size
and the offset is zero; and truncating an empty file to 4 bytes then
writing `"taco"` at offset 2 yields `"\x00\x00taco"`. -/
theorem C7_write_full_and_zero_fill :
    (∀ (fs : MemFS) (id : Nat) (data : List Nat) (offset : Nat)
        (ino : Inode),
      fs.inodes[id]? = some (some ino) →
      (WriteFile fs id data offset).2 = .ok () ∧
      (WriteFile fs id data offset).1.inodes[id]? =
        some (some { ino with contents := WriteAt ino.contents data offset })) ∧
    (∀ (contents data : List Nat) (offset : Nat),
      ((WriteAt contents data offset).drop offset).take data.length = data) ∧
    (∀ (contents data : List Nat) (offset : Nat),
      contents.length < offset + data.length →
      (WriteAt contents data offset).length = offset + data.length) ∧
    (∀ (contents data : List Nat) (offset i : Nat),
      contents.length ≤ i → i < offset →
      (WriteAt contents data offset)[i]? = some 0) ∧
    WriteAt (resize [] 4) [116, 97, 99, 111] 2 = [0, 0, 116, 97, 99, 111] := by
  have hpadlen : ∀ (contents : List Nat) (offset : Nat),
      (contents ++ List.replicate (offset - contents.length) 0).length =
        max contents.length offset := by
    intro contents offset
    simp [List.length_append, List.length_replicate]
    omega
  have htakelen : ∀ (contents : List Nat) (offset : Nat),
      ((contents ++ List.replicate (offset - contents.length) 0).take
        offset).length = offset := by
    intro contents offset
    rw [List.length_take, hpadlen]
    omega
  refine ⟨?_, ?_, ?_, ?_, by decide⟩
  · intro fs id data offset ino h
    have hlt : id < fs.inodes.length := by
      by_contra hge
      rw [List.getElem?_eq_none (by omega)] at h
      exact Option.noConfusion h
    constructor
    · simp [WriteFile, h]
    · simp [WriteFile, h, modifySlot, List.getElem?_set_self, hlt]
  · intro contents data offset
    unfold WriteAt
    rw [List.append_assoc, List.drop_append_of_le_length (by rw [htakelen]),
      List.drop_eq_nil_of_le (by rw [htakelen]), List.nil_append,
      List.take_left]
  · intro contents data offset hgrow
    unfold WriteAt
    rw [List.length_append, List.length_append, htakelen, List.length_drop]
    omega
  · intro contents data offset i hfrom hto
    unfold WriteAt
    rw [List.append_assoc, List.getElem?_append, htakelen, if_pos hto,
      List.getElem?_take, if_pos hto,
      List.getElem?_append_right hfrom, List.getElem?_replicate,
      if_pos (by omega)]

/-- Witness for **C7**: the grown-size case at a concrete input:
writing 4 bytes at offset 2 over 4 bytes of content yields exactly 6
bytes. -/
theorem C7_write_full_and_zero_fill_witness :
    ((List.replicate 4 0 : List Nat).length < 2 + 4) ∧
    (WriteAt (List.replicate 4 0) [116, 97, 99, 111] 2).length = 2 + 4 :=
  ⟨by decide,
   C7_write_full_and_zero_fill.2.2.1 (List.replicate 4 0)
     [116, 97, 99, 111] 2 (by decide)⟩

/-- Claim C9 (bug evidence): at a state where the root holds `"f"` at
inode 2 and a lookup succeeds at time 1000, the response's attribute
expiration is one year past `now`, but the entry expiration keeps its
incoming zero value — the source assigns `op.Entry.EntryExpiration` to
itself — so it is not set far in the future. -/
theorem C9_lookup_entry_expiration_bug :
    LookUpInode exS1f 1 "f" 1000 0 =
      .ok { Child := 2,
            Attributes := { Nlink := 1, Mode := 420, Atime := 100,
                            Mtime := 100, Ctime := 100, Crtime := 100 },
            AttributesExpiration := 1000 + yearNs,
            EntryExpiration := 0 } ∧
    (0 : Nat) ≠ 1000 + yearNs := by
  exact ⟨by decide, by decide⟩

/-- The entry returned by `MkDir` at `NewMemFS 0 0` for name `"a"`,
mode `0700|dir`, time 100. -/
def exMkEntry : ChildInodeEntry :=
  { Child := 2,
    Attributes := { Nlink := 1, Mode := 448 + ModeDir },
    AttributesExpiration := 100 + yearNs,
    EntryExpiration := 0 }

/-- The inode returned by `allocateInode` is the freshly created one,
in both the reuse and the append branch. -/
theorem allocateInode_snd_fst (fs : MemFS) (attrs : InodeAttributes) :
    (allocateInode fs attrs).2.1 = newInode attrs := by
  unfold allocateInode
  split <;> rfl

/-- Claim C10: the root inode of `NewMemFS` has mode `0700 | ModeDir`, the
constructor's uid/gid, and `Nlink = 0` (never initialized), so
`GetInodeAttributes` on the root reports `Nlink = 0`; children created
by `MkDir` start with `Nlink = 1` instead. -/
theorem C10_root_nlink_zero :
    (∀ uid gid now : Nat,
      GetInodeAttributes (NewMemFS uid gid) RootInodeID now =
        .ok ({ Mode := 448 + ModeDir, Uid := uid, Gid := gid },
             now + yearNs)) ∧
    (∀ uid gid : Nat, (rootAttrs uid gid).Nlink = 0 ∧
      (rootAttrs uid gid).Mode = 448 + ModeDir) ∧
    (newInode (rootAttrs 0 0)).isDir = true ∧
    (∀ (fs : MemFS) (p : Nat) (n : String) (mode uid gid now e0 : Nat)
        (entry : ChildInodeEntry),
      (MkDir fs p n mode uid gid now e0).2 = .ok entry →
      entry.Attributes.Nlink = 1) := by
  refine ⟨?_, ?_, ?_, ?_⟩
  · intro uid gid now
    rfl
  · intro uid gid
    exact ⟨rfl, rfl⟩
  · decide
  · intro fs p n mode uid gid now e0 entry h
    unfold MkDir at h
    split at h
    · simp only [allocateInode_snd_fst] at h
      injection h with h
      rw [← h]
      rfl
    · exact OpResult.noConfusion h

/-- Witness for **C10**: the child entry returned by a concrete `MkDir`
has `Nlink = 1`. -/
theorem C10_root_nlink_zero_witness :
    (MkDir (NewMemFS 0 0) 1 "a" (448 + ModeDir) 0 0 100 0).2 =
      .ok exMkEntry ∧ exMkEntry.Attributes.Nlink = 1 :=
  ⟨by decide,
   C10_root_nlink_zero.2.2.2 (NewMemFS 0 0) 1 "a" (448 + ModeDir) 0 0 100 0
     exMkEntry (by decide)⟩

/-- Whether an operation outcome is a success. -/
def OpResult.isOk {α : Type} : OpResult α → Bool
  | .ok _ => true
  | _ => false

/-- Resolve a name in the directory at slot `p` (none when the slot is
not an occupied inode or the name is absent). -/
def dirLookup (fs : MemFS) (p : Nat) (n : String) : Option Nat :=
  match fs.inodes[p]? with
  | some (some ino) => ino.LookUpChild n
  | _ => none

/-- Claim C3 counterexample: in `exS1` the root already contains `"a"`
(child 2), yet `MkDir` with the same name does not fail with
already-exists: it mutates the state, allocating a new inode. -/
theorem C3_counterexample :
    dirLookup exS1 1 "a" = some 2 ∧
    (MkDir exS1 1 "a" (448 + ModeDir) 0 0 100 0).2 ≠
      .error .EEXIST ∧
    (MkDir exS1 1 "a" (448 + ModeDir) 0 0 100 0).1 ≠ exS1 ∧
    (MkDir exS1 1 "a" (448 + ModeDir) 0 0 100 0).1.inodes.length =
      exS1.inodes.length + 1 := by
  decide

/-- Claim C3 amended: only `CreateFile` rejects an existing name (with
`EEXIST` and no mutation); `MkDir` and `CreateSymlink` perform no
existing-name check and report success on any occupied parent. -/
theorem C3_only_createfile_checks :
    (∀ (fs : MemFS) (p : Nat) (n : String) (mode uid gid now e0 : Nat)
        (pIno : Inode),
      fs.inodes[p]? = some (some pIno) →
      (pIno.LookUpChild n).isSome = true →
      CreateFile fs p n mode uid gid now e0 = (fs, .error .EEXIST)) ∧
    (∀ (fs : MemFS) (p : Nat) (n : String) (mode uid gid now e0 : Nat)
        (pIno : Inode),
      fs.inodes[p]? = some (some pIno) →
      ((MkDir fs p n mode uid gid now e0).2).isOk = true) ∧
    (∀ (fs : MemFS) (p : Nat) (n target : String) (uid gid now e0 : Nat)
        (pIno : Inode),
      fs.inodes[p]? = some (some pIno) →
      ((CreateSymlink fs p n target uid gid now e0).2).isOk = true) := by
  refine ⟨?_, ?_, ?_⟩
  · intro fs p n mode uid gid now e0 pIno h1 h2
    simp [CreateFile, h1, h2]
  · intro fs p n mode uid gid now e0 pIno h1
    simp only [MkDir, h1]
    rfl
  · intro fs p n target uid gid now e0 pIno h1
    simp only [CreateSymlink, h1]
    rfl

/-- The root inode of `exS1f`: one entry `"f"` for child 2. -/
def exS1fRoot : Inode :=
  { attrs := rootAttrs 0 0, entries := [⟨"f", 2, .DT_File⟩] }

/-- Witness for **C3 amended**: a duplicate `CreateFile` of `"f"` in
`exS1f` fails with `EEXIST` and leaves the state unchanged, while
`MkDir` and `CreateSymlink` with the same name report success. -/
theorem C3_only_createfile_checks_witness :
    CreateFile exS1f 1 "f" 420 0 0 200 0 = (exS1f, .error .EEXIST) ∧
    ((MkDir exS1f 1 "f" (448 + ModeDir) 0 0 200 0).2).isOk = true ∧
    ((CreateSymlink exS1f 1 "f" "t" 0 0 200 0).2).isOk = true :=
  ⟨C3_only_createfile_checks.1 exS1f 1 "f" 420 0 0 200 0 exS1fRoot
     (by decide) (by decide),
   C3_only_createfile_checks.2.1 exS1f 1 "f" (448 + ModeDir) 0 0 200 0
     exS1fRoot (by decide),
   C3_only_createfile_checks.2.2 exS1f 1 "f" "t" 0 0 200 0 exS1fRoot
     (by decide)⟩

/-- The `modifySlot` rewrites the targeted occupied slot by `f`. -/
theorem modifySlot_get_same (fs : MemFS) (i : Nat) (f : Inode → Inode)
    (ino : Inode) (h : fs.inodes[i]? = some (some ino)) :
    (modifySlot fs i f).inodes[i]? = some (some (f ino)) := by
  have hlt : i < fs.inodes.length := by
    by_contra hge
    rw [List.getElem?_eq_none (by omega)] at h
    exact Option.noConfusion h
  rw [modifySlot, h]
  simp only
  rw [List.getElem?_set_self', h]
  rfl

/-- The `modifySlot` leaves every other slot unchanged. -/
theorem modifySlot_get_other (fs : MemFS) (i j : Nat) (f : Inode → Inode)
    (hne : i ≠ j) :
    (modifySlot fs i f).inodes[j]? = fs.inodes[j]? := by
  rw [modifySlot]
  match h : fs.inodes[i]? with
  | some (some ino) =>
    simp only
    rw [List.getElem?_set_ne hne]
  | some none => rfl
  | none => rfl

/-- The `modifySlot` does not touch the free list. -/
theorem modifySlot_freeInodes (fs : MemFS) (i : Nat) (f : Inode → Inode) :
    (modifySlot fs i f).freeInodes = fs.freeInodes := by
  rw [modifySlot]
  match h : fs.inodes[i]? with
  | some (some ino) => rfl
  | some none => rfl
  | none => rfl

/-- Facts about the shared removal step of `Unlink` and `RmDir`: after
removing the entry in the parent slot and decrementing the link count in
the child slot, the parent slot holds the parent without the entry, the
child slot is still occupied with its link count decremented, and the
free list is untouched (this also covers the degenerate aliased case
`childID = p`). -/
theorem removal_chain_facts (fs : MemFS) (p childID : Nat) (n : String)
    (pIno child : Inode)
    (h1 : fs.inodes[p]? = some (some pIno))
    (h3 : fs.inodes[childID]? = some (some child)) :
    ∀ fs2 : MemFS,
      fs2 = modifySlot (modifySlot fs p (fun x => x.RemoveChild n)) childID
        (fun c => { c with attrs :=
          { c.attrs with Nlink := decNlink c.attrs.Nlink } }) →
      (∃ pIno', fs2.inodes[p]? = some (some pIno') ∧
        pIno'.entries = (pIno.RemoveChild n).entries) ∧
      (∃ child', fs2.inodes[childID]? = some (some child') ∧
        child'.attrs.Nlink = decNlink child.attrs.Nlink) ∧
      fs2.freeInodes = fs.freeInodes := by
  intro fs2 hfs2
  have hfree : fs2.freeInodes = fs.freeInodes := by
    rw [hfs2, modifySlot_freeInodes, modifySlot_freeInodes]
  by_cases hpc : childID = p
  · subst hpc
    have hcp : pIno = child := by
      rw [h1] at h3
      injection h3 with h3
      injection h3
    subst hcp
    have hmid : (modifySlot fs childID
        (fun x => x.RemoveChild n)).inodes[childID]? =
        some (some (pIno.RemoveChild n)) :=
      modifySlot_get_same _ _ _ _ h1
    have hfin : fs2.inodes[childID]? =
        some (some ({ pIno.RemoveChild n with attrs :=
          { (pIno.RemoveChild n).attrs with
            Nlink := decNlink (pIno.RemoveChild n).attrs.Nlink } })) := by
      rw [hfs2]
      exact modifySlot_get_same _ _ _ _ hmid
    exact ⟨⟨_, hfin, rfl⟩, ⟨_, hfin, rfl⟩, hfree⟩
  · have hmid_p : (modifySlot fs p
        (fun x => x.RemoveChild n)).inodes[p]? =
        some (some (pIno.RemoveChild n)) :=
      modifySlot_get_same _ _ _ _ h1
    have hfin_p : fs2.inodes[p]? = some (some (pIno.RemoveChild n)) := by
      rw [hfs2, modifySlot_get_other _ _ _ _ hpc]
      exact hmid_p
    have hmid_c : (modifySlot fs p
        (fun x => x.RemoveChild n)).inodes[childID]? =
        some (some child) := by
      rw [modifySlot_get_other _ _ _ _ (fun h => hpc h.symm)]
      exact h3
    have hfin_c : fs2.inodes[childID]? =
        some (some ({ child with attrs :=
          { child.attrs with Nlink := decNlink child.attrs.Nlink } })) := by
      rw [hfs2]
      exact modifySlot_get_same _ _ _ _ hmid_c
    exact ⟨⟨_, hfin_p, rfl⟩, ⟨_, hfin_c, rfl⟩, hfree⟩

/-- Claim C4: `Unlink` and successful `RmDir` remove the parent's entry
and decrement the child's link count by exactly one (`uint32`
decrement, equal to `k - 1` for `0 < k < 2^32`), the child's slot stays
occupied, and the free list is untouched. -/
theorem C4_removal_keeps_slot :
    (∀ (fs : MemFS) (p : Nat) (n : String) (pIno child : Inode)
        (childID : Nat),
      fs.inodes[p]? = some (some pIno) →
      pIno.LookUpChild n = some childID →
      fs.inodes[childID]? = some (some child) →
      (Unlink fs p n).2 = .ok () ∧
      (∃ pIno', (Unlink fs p n).1.inodes[p]? = some (some pIno') ∧
        pIno'.entries = (pIno.RemoveChild n).entries) ∧
      (∃ child', (Unlink fs p n).1.inodes[childID]? = some (some child') ∧
        child'.attrs.Nlink = decNlink child.attrs.Nlink) ∧
      (Unlink fs p n).1.freeInodes = fs.freeInodes) ∧
    (∀ (fs : MemFS) (p : Nat) (n : String) (pIno child : Inode)
        (childID : Nat),
      fs.inodes[p]? = some (some pIno) →
      pIno.LookUpChild n = some childID →
      fs.inodes[childID]? = some (some child) →
      child.Len = 0 →
      (RmDir fs p n).2 = .ok () ∧
      (∃ pIno', (RmDir fs p n).1.inodes[p]? = some (some pIno') ∧
        pIno'.entries = (pIno.RemoveChild n).entries) ∧
      (∃ child', (RmDir fs p n).1.inodes[childID]? = some (some child') ∧
        child'.attrs.Nlink = decNlink child.attrs.Nlink) ∧
      (RmDir fs p n).1.freeInodes = fs.freeInodes) ∧
    (∀ k : Nat, 0 < k → k < 4294967296 → decNlink k = k - 1) := by
  refine ⟨?_, ?_, ?_⟩
  · intro fs p n pIno child childID h1 h2 h3
    have hU : Unlink fs p n =
        (modifySlot (modifySlot fs p (fun x => x.RemoveChild n)) childID
          (fun c => { c with attrs :=
            { c.attrs with Nlink := decNlink c.attrs.Nlink } }), .ok ()) := by
      simp only [Unlink, h1, h2, h3]
    obtain ⟨ha, hb, hc⟩ :=
      removal_chain_facts fs p childID n pIno child h1 h3 _ rfl
    rw [hU]
    exact ⟨rfl, ha, hb, hc⟩
  · intro fs p n pIno child childID h1 h2 h3 h4
    have hU : RmDir fs p n =
        (modifySlot (modifySlot fs p (fun x => x.RemoveChild n)) childID
          (fun c => { c with attrs :=
            { c.attrs with Nlink := decNlink c.attrs.Nlink } }), .ok ()) := by
      simp only [RmDir, h1, h2, h3, h4]
      simp
    obtain ⟨ha, hb, hc⟩ :=
      removal_chain_facts fs p childID n pIno child h1 h3 _ rfl
    rw [hU]
    exact ⟨rfl, ha, hb, hc⟩
  · intro k hk1 hk2
    unfold decNlink
    omega

/-- Witness for **C4**: in `exTree`, unlinking the file `"f"` and
removing the empty directory `"e"` both succeed without touching the
free list, and the `uint32` decrement of 1 is 0. -/
theorem C4_removal_keeps_slot_witness :
    (Unlink exTree 1 "f").2 = .ok () ∧
    (Unlink exTree 1 "f").1.freeInodes = exTree.freeInodes ∧
    (RmDir exTree 1 "e").2 = .ok () ∧
    decNlink 1 = 1 - 1 := by
  have hu := C4_removal_keeps_slot.1 exTree 1 "f" exParentIno exFile 4
    (by decide) (by decide) (by decide)
  have hr := C4_removal_keeps_slot.2.1 exTree 1 "e" exParentIno exEmptyDir 3
    (by decide) (by decide) (by decide) (by decide)
  have hd := C4_removal_keeps_slot.2.2 1 (by decide) (by decide)
  exact ⟨hu.1, hu.2.2.2, hr.1, hd⟩

/-- A defined slot index is within the table. -/
theorem slot_lt (fs : MemFS) {i : Nat} {v : Option Inode}
    (h : fs.inodes[i]? = some v) : i < fs.inodes.length := by
  by_contra hge
  rw [List.getElem?_eq_none (by omega)] at h
  exact Option.noConfusion h

/-- Membership in the rebuilt vacant-ID list. -/
theorem mem_vacantAbove (fs : MemFS) (id : Nat) :
    id ∈ vacantAbove fs ↔
      RootInodeID < id ∧ fs.inodes[id]? = some none := by
  unfold vacantAbove
  rw [List.mem_filter, List.mem_range]
  constructor
  · rintro ⟨-, h⟩
    rw [Bool.and_eq_true, decide_eq_true_eq, decide_eq_true_eq] at h
    exact h
  · rintro ⟨h1, h2⟩
    exact ⟨slot_lt fs h2, by
      rw [Bool.and_eq_true, decide_eq_true_eq, decide_eq_true_eq]
      exact ⟨h1, h2⟩⟩

/-- The rebuilt vacant-ID list has no duplicates. -/
theorem nodup_vacantAbove (fs : MemFS) : (vacantAbove fs).Nodup :=
  List.Nodup.filter _ (List.nodup_range _)

/-- Two duplicate-free lists with the same members have the same
length. -/
theorem length_eq_of_nodup_mem_iff {l₁ l₂ : List Nat}
    (h₁ : l₁.Nodup) (h₂ : l₂.Nodup) (h : ∀ x, x ∈ l₁ ↔ x ∈ l₂) :
    l₁.length = l₂.length :=
  ((List.perm_ext_iff_of_nodup h₁ h₂).mpr h).length_eq

/-- A duplicate-free sublist (memberwise) of a duplicate-free list of
the same length has the same members. -/
theorem mem_iff_of_nodup_subset_length {l₁ l₂ : List Nat}
    (h₁ : l₁.Nodup) (h₂ : l₂.Nodup)
    (hsub : ∀ x ∈ l₁, x ∈ l₂) (hlen : l₁.length = l₂.length) :
    ∀ x, x ∈ l₁ ↔ x ∈ l₂ := by
  have hfin : l₁.toFinset = l₂.toFinset := by
    apply Finset.eq_of_subset_of_card_le
    · intro x hx
      rw [List.mem_toFinset] at hx ⊢
      exact hsub x hx
    · rw [List.toFinset_card_of_nodup h₁, List.toFinset_card_of_nodup h₂,
        hlen]
  intro x
  rw [← List.mem_toFinset, ← List.mem_toFinset (l := l₂), hfin]

/-- Claim C8 counterexample: in `exDup` the free list `[5, 5]` differs
from the vacant-ID set `{5, 7}` (7 is vacant above the root but not on
the free list, and 5 is duplicated), yet `checkInvariants` does not
panic: its length and membership checks both pass. -/
theorem C8_counterexample :
    (7 ∈ vacantAbove exDup) ∧ 7 ∉ exDup.freeInodes ∧
    ¬ exDup.freeInodes.Nodup ∧
    checkInvariantsPanics exDup = false := by
  decide

/-- Claim C8 amended: `checkInvariants` panics when a reserved slot is
occupied, when the root slot is not an occupied directory, when the
free-list length differs from the vacant-slot count, or when a free-list
member is not a vacant slot above the root; consequently, for a
duplicate-free free list, not panicking is exactly the semantic table
invariant. (Free lists whose duplicates keep the length equal while
every member is vacant escape detection.) -/
theorem C8_no_panic_iff_inv :
    ∀ fs : MemFS, fs.freeInodes.Nodup →
      (checkInvariantsPanics fs = false ↔ Inv fs) := by
  intro fs hnd
  unfold checkInvariantsPanics
  simp only [Bool.or_eq_false_iff, List.any_eq_false, Bool.not_eq_false,
    Bool.not_eq_true', decide_eq_false_iff_not, decide_eq_true_eq,
    List.mem_range, not_not, Decidable.not_not]
  constructor
  · rintro ⟨⟨⟨hres, hroot⟩, hlen⟩, hmem⟩
    have hrootEx : ∃ ino, fs.inodes[RootInodeID]? = some (some ino) ∧
        ino.isDir = true := by
      revert hroot
      match h : fs.inodes[RootInodeID]? with
      | some (some ino) =>
        intro hroot
        exact ⟨ino, rfl, by simpa using hroot⟩
      | some none => intro hroot; exact absurd hroot (by simp)
      | none => intro hroot; exact absurd hroot (by simp)
    have hmemiff : ∀ x, x ∈ fs.freeInodes ↔ x ∈ vacantAbove fs :=
      mem_iff_of_nodup_subset_length hnd (nodup_vacantAbove fs) hmem hlen
    obtain ⟨ino, hino, hdir⟩ := hrootEx
    refine ⟨?_, hres, ⟨ino, hino, hdir⟩, hnd, ?_⟩
    · have := slot_lt fs hino
      omega
    · intro id
      rw [hmemiff, mem_vacantAbove]
  · rintro ⟨hlen0, hres, ⟨ino, hino, hdir⟩, -, hmemiff⟩
    have hsub : ∀ x ∈ fs.freeInodes, x ∈ vacantAbove fs := by
      intro x hx
      rw [mem_vacantAbove]
      exact (hmemiff x).mp hx
    refine ⟨⟨⟨hres, ?_⟩, ?_⟩, hsub⟩
    · rw [hino]
      simp [hdir]
    · exact length_eq_of_nodup_mem_iff hnd (nodup_vacantAbove fs)
        (fun x => (hmemiff x).trans (mem_vacantAbove fs x).symm)

/-- Witness for **C8 amended**: at the consistent state `exTree` (empty,
duplicate-free free list) the oracle does not panic, and the invariant
indeed holds. -/
theorem C8_no_panic_iff_inv_witness :
    exTree.freeInodes.Nodup ∧
    (checkInvariantsPanics exTree = false ↔ Inv exTree) :=
  ⟨List.nodup_nil, C8_no_panic_iff_inv exTree List.nodup_nil⟩

/-- In a duplicate-free list, membership in `dropLast` is membership in
the list minus the last element. -/
theorem mem_dropLast_iff_of_nodup {l : List Nat} (h : l.Nodup)
    (hne : l ≠ []) (x : Nat) :
    x ∈ l.dropLast ↔ (x ∈ l ∧ x ≠ l.getLast hne) := by
  have hsplit : l.dropLast ++ [l.getLast hne] = l :=
    List.dropLast_append_getLast hne
  constructor
  · intro hx
    have hxl : x ∈ l := by
      rw [← hsplit]
      exact List.mem_append_left _ hx
    have hnd2 : (l.dropLast ++ [l.getLast hne]).Nodup := by
      rw [hsplit]
      exact h
    rw [List.nodup_append] at hnd2
    obtain ⟨-, -, hdisj⟩ := hnd2
    exact ⟨hxl, fun heq => hdisj hx (heq ▸ List.mem_singleton_self _)⟩
  · rintro ⟨hxl, hxe⟩
    rw [← hsplit] at hxl
    rcases List.mem_append.mp hxl with h1 | h1
    · exact h1
    · exact absurd (List.mem_singleton.mp h1) hxe

/-- The invariant holds at the state built by `NewMemFS`. -/
theorem Inv_NewMemFS (uid gid : Nat) : Inv (NewMemFS uid gid) := by
  refine ⟨by simp [NewMemFS, RootInodeID], ?_,
    ⟨newInode (rootAttrs uid gid), rfl, ?_⟩, List.nodup_nil, ?_⟩
  · intro i hi
    have : i = 0 := by
      revert hi
      unfold RootInodeID
      omega
    subst this
    rfl
  · have hsame : (newInode (rootAttrs uid gid)).isDir =
        (newInode (rootAttrs 0 0)).isDir := rfl
    rw [hsame]
    decide
  · intro id
    simp only [NewMemFS, List.not_mem_nil, false_iff, not_and]
    intro hgt
    rw [List.getElem?_eq_none]
    · intro h
      exact Option.noConfusion h
    · simp only [List.length_append, List.length_replicate,
        List.length_cons, List.length_nil]
      unfold RootInodeID at hgt ⊢
      omega

/-- The `allocateInode` preserves the table invariant. -/
theorem Inv_allocateInode (fs : MemFS) (attrs : InodeAttributes)
    (h : Inv fs) : Inv (allocateInode fs attrs).2.2 := by
  obtain ⟨hlen, hres, ⟨rino, hroot, hdir⟩, hnd, hmem⟩ := h
  unfold allocateInode
  split
  case isTrue hne =>
    set id := fs.freeInodes.getLast hne with hiddef
    have hid : id ∈ fs.freeInodes := List.getLast_mem hne
    obtain ⟨hidgt, hidvac⟩ := (hmem id).mp hid
    have hidlt : id < fs.inodes.length := slot_lt fs hidvac
    refine ⟨?_, ?_, ⟨rino, ?_, hdir⟩, ?_, ?_⟩
    · simpa using hlen
    · intro i hi
      have hne2 : id ≠ i := by omega
      simp only
      rw [List.getElem?_set_ne hne2]
      exact hres i hi
    · simp only
      rw [List.getElem?_set_ne (by omega)]
      exact hroot
    · exact hnd.sublist (List.dropLast_sublist _)
    · intro x
      simp only
      rw [mem_dropLast_iff_of_nodup hnd hne, hmem x, ← hiddef]
      by_cases hxid : x = id
      · subst hxid
        simp only [ne_eq, not_true_eq_false, and_false, false_iff, not_and]
        intro _
        rw [List.getElem?_set_self']
        rw [List.getElem?_eq_getElem hidlt]
        intro hcon
        simp at hcon
      · rw [List.getElem?_set_ne (fun h => hxid h.symm)]
        constructor
        · rintro ⟨⟨hgt, hvac⟩, -⟩
          exact ⟨hgt, hvac⟩
        · rintro ⟨hgt, hvac⟩
          exact ⟨⟨hgt, hvac⟩, hxid⟩
  case isFalse hne =>
    have hempty : fs.freeInodes = [] := by
      by_contra hcon
      exact hne hcon
    refine ⟨?_, ?_, ⟨rino, ?_, hdir⟩, hnd, ?_⟩
    · simp only [List.length_append, List.length_cons, List.length_nil]
      omega
    · intro i hi
      simp only
      rw [List.getElem?_append, if_pos (by omega)]
      exact hres i hi
    · simp only
      rw [List.getElem?_append, if_pos hlen]
      exact hroot
    · intro x
      rw [hmem x]
      by_cases hxlt : x < fs.inodes.length
      · simp only
        rw [List.getElem?_append, if_pos hxlt]
      · constructor
        · rintro ⟨hgt, hvac⟩
          exact absurd (slot_lt fs hvac) hxlt
        · rintro ⟨hgt, hvac⟩
          exfalso
          rcases Nat.lt_or_ge x (fs.inodes.length + 1) with hx1 | hx1
          · have hxeq : x = fs.inodes.length := by omega
            subst hxeq
            rw [List.getElem?_append_right (le_refl _)] at hvac
            simp at hvac
          · rw [List.getElem?_eq_none (by simp; omega)] at hvac
            exact Option.noConfusion hvac

/-- The `deallocateInode` of an occupied slot above the root preserves the
table invariant. -/
theorem Inv_deallocateInode (fs : MemFS) (id : Nat) (ino : Inode)
    (h : Inv fs) (hgt : RootInodeID < id)
    (hocc : fs.inodes[id]? = some (some ino)) :
    Inv (deallocateInode fs id) := by
  obtain ⟨hlen, hres, ⟨rino, hroot, hdir⟩, hnd, hmem⟩ := h
  have hidlt : id < fs.inodes.length := slot_lt fs hocc
  have hnotfree : id ∉ fs.freeInodes := by
    intro hin
    obtain ⟨-, hvac⟩ := (hmem id).mp hin
    rw [hocc] at hvac
    exact Option.noConfusion (Option.some.inj hvac)
  refine ⟨?_, ?_, ⟨rino, ?_, hdir⟩, ?_, ?_⟩
  · simpa [deallocateInode] using hlen
  · intro i hi
    simp only [deallocateInode]
    rw [List.getElem?_set_ne (by omega)]
    exact hres i hi
  · simp only [deallocateInode]
    rw [List.getElem?_set_ne (by omega)]
    exact hroot
  · simp only [deallocateInode]
    rw [List.nodup_append]
    exact ⟨hnd, List.nodup_singleton _,
      fun a ha hb => hnotfree ((List.mem_singleton.mp hb) ▸ ha)⟩
  · intro x
    simp only [deallocateInode, List.mem_append, List.mem_singleton]
    by_cases hxid : x = id
    · subst hxid
      simp only [or_true, true_iff]
      refine ⟨hgt, ?_⟩
      rw [List.getElem?_set_self']
      rw [List.getElem?_eq_getElem hidlt]
      rfl
    · rw [List.getElem?_set_ne (fun h => hxid h.symm)]
      constructor
      · rintro (hx | hx)
        · exact (hmem x).mp hx
        · exact absurd hx hxid
      · intro hx
        exact Or.inl ((hmem x).mpr hx)

/-- The invariant is preserved along any valid sequence of table
operations. -/
theorem Inv_runTableOps :
    ∀ (ops : List TableOp) (fs : MemFS), Inv fs →
      validOps fs ops = true → Inv (runTableOps fs ops) := by
  intro ops
  induction ops with
  | nil => intro fs h _; exact h
  | cons op rest ih =>
    intro fs hInv hval
    match op with
    | .alloc attrs =>
      rw [validOps] at hval
      exact ih _ (Inv_allocateInode fs attrs hInv) hval
    | .dealloc id =>
      rw [validOps, Bool.and_eq_true, Bool.and_eq_true] at hval
      obtain ⟨⟨hgt, hocc⟩, hval⟩ := hval
      rw [decide_eq_true_eq] at hgt
      have : ∃ ino, fs.inodes[id]? = some (some ino) := by
        revert hocc
        unfold occupied
        match h : fs.inodes[id]? with
        | some (some ino) => intro _; exact ⟨ino, rfl⟩
        | some none => intro hcon; exact Bool.noConfusion hcon
        | none => intro hcon; exact Bool.noConfusion hcon
      obtain ⟨ino, hino⟩ := this
      exact ih _ (Inv_deallocateInode fs id ino hInv hgt hino) hval

/-- Claim C1 counterexample: the single-call sequence
`deallocateInode RootInodeID`, starting from the filesystem built by
`NewMemFS`, breaks the invariants: the root slot becomes vacant and the
root ID sits on the free list. -/
theorem C1_counterexample :
    ¬ Inv (runTableOps (NewMemFS 0 0) [.dealloc RootInodeID]) := by
  rintro ⟨-, -, ⟨ino, hino, -⟩, -⟩
  simp [runTableOps, applyTableOp, deallocateInode, NewMemFS,
    RootInodeID] at hino

/-- Claim C1 amended: starting from the filesystem built by `NewMemFS`,
after any sequence of `allocateInode` calls and of `deallocateInode`
calls that target occupied slots with IDs above the root (the only way
the engine uses deallocation), the table invariants hold: the table is
longer than `RootInodeID`, reserved slots are vacant, the root slot is
an occupied directory, and the free list is exactly the set of vacant
slot IDs above the root. -/
theorem C1_invariants_hold :
    ∀ (uid gid : Nat) (ops : List TableOp),
      validOps (NewMemFS uid gid) ops = true →
      Inv (runTableOps (NewMemFS uid gid) ops) :=
  fun uid gid ops h => Inv_runTableOps ops _ (Inv_NewMemFS uid gid) h

/-- Witness for **C1 amended**: an allocate–deallocate–allocate sequence
is valid from the fresh filesystem and lands in an invariant-satisfying
state. -/
theorem C1_invariants_hold_witness :
    validOps (NewMemFS 0 0)
      [.alloc exFile.attrs, .dealloc 2, .alloc exFile.attrs] = true ∧
    Inv (runTableOps (NewMemFS 0 0)
      [.alloc exFile.attrs, .dealloc 2, .alloc exFile.attrs]) :=
  ⟨by decide, C1_invariants_hold 0 0 _ (by decide)⟩

end Memfs
